import Mathlib

/-!
# alertboard: the bolt-backed alert store of `db.go`

A shallow embedding of `boltStore` and its operations `newBoltStore`,
`putAlert`, `getAlert`, `deleteAlert`, `getAlertsByPrefix` and `backup`.

* A Go `string` / `[]byte` is a list of bytes (`Bytes`).
* The `alerts` bucket of the bolt database is the list of its key/value
  pairs in the order the B+tree keeps them (ascending `bytes.Compare`).
  `Bucket.Put`, `Bucket.Delete`, `Bucket.Get` and the cursor follow bolt:
  they search for the first key that is not smaller than the given one.
* Stored values are opaque to bolt, so the value type `V` is a parameter;
  `encoding/json` is a parameter too (`JSON V A`).
* The store is an open database. A read transaction (`db.View`) of an open
  database begins and ends without error, so its closure is modelled in
  place. A write transaction (`db.Update`) may fail to begin or to commit:
  `putAlert` and `deleteAlert` take that outcome from the environment
  (`TxOutcome`), `newBoltStore` takes the outcome of `bolt.Open` and of its
  transaction (`InitEnv`). A failed transaction leaves the database as it was.
* A missing `alerts` bucket makes `tx.Bucket` return nil, and the method call
  on it panics.
* An `http.ResponseWriter` follows the contract of the interface: the first
  `WriteHeader`, explicit or implied by the first `Write`, fixes the status.
-/

namespace Alertboard

/-- A Go byte string (`string` or `[]byte`). -/
abbrev Bytes := List Nat

/-- A Go `error`, identified by its message. -/
abbrev Err := String

/-- The bytes of an ASCII string literal. -/
def str (s : String) : Bytes := s.toList.map Char.toNat

/-- Result of a call that may hit a nil-pointer dereference. -/
inductive Outcome (R : Type) where
  | panics : Outcome R
  | returns : R → Outcome R
  deriving DecidableEq, Repr

/-! ## bytes -/

/-- The test `bytes.Compare(a, b) < 0`: byte-lexicographic order. -/
def bytesLess : Bytes → Bytes → Bool
  | [], [] => false
  | [], _ :: _ => true
  | _ :: _, [] => false
  | x :: xs, y :: ys =>
    if x < y then true else if y < x then false else bytesLess xs ys

/-- The test `bytes.HasPrefix(s, p)`. -/
def HasPrefix : Bytes → Bytes → Bool
  | _, [] => true
  | [], _ :: _ => false
  | x :: xs, y :: ys => x == y && HasPrefix xs ys

/-! ## time -/

/-- A `time.Time`, as the instant it denotes: nanoseconds since
January 1, year 1, 00:00:00 UTC, the zero value of the type. -/
abbrev Time := Int

/-- The method `Time.IsZero`. -/
def Time.IsZero (t : Time) : Bool := t == 0

/-! ## the alert document -/

/-- Modelled from the spec: the declaration of `alertData` is not in `db.go`.
The store reads and writes `ID`, `Status` and `Time`; `extra` stands for the
caller-defined fields, which the store never touches. -/
structure alertData (X : Type) where
  ID : Bytes
  Status : Bytes
  Time : Time
  extra : X
  deriving DecidableEq, Repr

/-- The zero value of `alertData`, what `var alert alertData` holds. -/
def alertData.zero {X : Type} [Inhabited X] : alertData X :=
  { ID := [], Status := [], Time := 0, extra := default }

/-! ## encoding/json -/

/-- The three calls of `encoding/json` the store makes, for stored texts of
type `V` and documents of type `A`.

`Unmarshal v` reads the text `v`; it fails on the text alone, and otherwise
yields the function that stores what the text holds into the destination
`json.Unmarshal(v, &dst)` was given, leaving alone what the text does not
mention. A Go slice is `none` when nil and `some l` otherwise. `tooLarge v`
is the test `int64(len(v)) > MaxValueSize` of `Bucket.Put`. -/
structure JSON (V A : Type) where
  Marshal : A → Except Err V
  MarshalSlice : Option (List A) → Except Err V
  Unmarshal : V → Except Err (A → A)
  tooLarge : V → Bool

/-! ## bolt -/

/-- The key/value pairs of a bucket, in cursor order. -/
abbrev Bucket (V : Type) := List (Bytes × V)

/-- The B+tree keeps keys strictly ascending, hence unique. -/
def Bucket.WF {V : Type} (bk : Bucket V) : Prop :=
  bk.Pairwise (fun x y => bytesLess x.1 y.1 = true)

instance {V : Type} (bk : Bucket V) : Decidable (Bucket.WF bk) :=
  inferInstanceAs
    (Decidable (List.Pairwise (fun (x y : Bytes × V) => bytesLess x.1 y.1 = true) bk))

/-- The keys of a bucket, in cursor order. -/
def Bucket.keys {V : Type} (bk : Bucket V) : List Bytes := bk.map Prod.fst

/-- The constant `bolt.MaxKeySize`. -/
def MaxKeySize : Nat := 32768

/-- The cursor after `Cursor.Seek(k)`: it stands on the first pair whose key
is not smaller than `k`; the list is what the cursor has yet to visit, and is
empty when `Seek` returns a nil key. -/
def Bucket.Seek {V : Type} (k : Bytes) : Bucket V → List (Bytes × V)
  | [] => []
  | e :: rest => if bytesLess e.1 k then Bucket.Seek k rest else e :: rest

/-- The method `Bucket.Get`: the value at the key, or nil. -/
def Bucket.Get {V : Type} (bk : Bucket V) (k : Bytes) : Option V :=
  match Bucket.Seek k bk with
  | [] => none
  | e :: _ => if e.1 = k then some e.2 else none

/-- The tree after `node.put`: the pair goes where the first key not smaller
than `k` stands, replacing it when that key is `k`. -/
def Bucket.insert {V : Type} (k : Bytes) (v : V) : Bucket V → Bucket V
  | [] => [(k, v)]
  | e :: rest =>
    if bytesLess e.1 k then e :: Bucket.insert k v rest
    else if e.1 = k then (k, v) :: rest
    else (k, v) :: e :: rest

/-- The method `Bucket.Put`: the checks on the key and the value, then the
insertion. -/
def Bucket.Put {V : Type} (tooLarge : V → Bool) (bk : Bucket V) (k : Bytes) (v : V) :
    Except Err (Bucket V) :=
  if k.length = 0 then .error "key required"
  else if k.length > MaxKeySize then .error "key too large"
  else if tooLarge v then .error "value too large"
  else .ok (Bucket.insert k v bk)

/-- The tree after `Bucket.Delete`: the first key not smaller than `k` is
removed when it is `k`; otherwise nothing changes. The call returns nil in
both cases. -/
def Bucket.Delete {V : Type} (k : Bytes) : Bucket V → Bucket V
  | [] => []
  | e :: rest =>
    if bytesLess e.1 k then e :: Bucket.Delete k rest
    else if e.1 = k then rest
    else e :: rest

/-- A bolt database: its root holds the `alerts` bucket or does not. -/
structure DB (V : Type) where
  alerts : Option (Bucket V)
  deriving DecidableEq, Repr

/-- The struct `boltStore`. -/
structure boltStore (V : Type) where
  db : DB V
  deriving DecidableEq, Repr

/-- A store whose `alerts` bucket exists and holds `bk`. -/
def boltStore.holding {V : Type} (bk : Bucket V) : boltStore V :=
  { db := { alerts := some bk } }

/-- What the file system and the transaction do during `newBoltStore`:
the result of `bolt.Open`, the error of `CreateBucketIfNotExists` if it fails,
and the error of the commit of `db.Update` if it fails. -/
structure InitEnv (V : Type) where
  opened : Except Err (DB V)
  createBucket : Option Err
  commit : Option Err

/-- The method `Tx.CreateBucketIfNotExists` on the `alerts` name. -/
def DB.CreateBucketIfNotExists {V : Type} (db : DB V) : DB V :=
  match db.alerts with
  | some _ => db
  | none => { alerts := some [] }

/-- The function `newBoltStore`: the returned store (nil is `none`) and the
returned error. -/
def newBoltStore {V : Type} (env : InitEnv V) : Option (boltStore V) × Option Err :=
  match env.opened with
  | .error err => (none, some err)
  | .ok db =>
    match env.createBucket with
    | some err => (some { db := db }, some ("create bucket: " ++ err))
    | none =>
      match env.commit with
      | some err => (some { db := db }, some err)
      | none => (some { db := db.CreateBucketIfNotExists }, none)

/-- The alert as `putAlert` serializes it: `Time` and `Status` filled in. -/
def fillDefaults {X : Type} (now : Time) (a : alertData X) : alertData X :=
  let a := if a.Time.IsZero then { a with Time := now } else a
  if a.Status = [] then { a with Status := str "Open" } else a

/-- What the write transaction of one `db.Update` call does around the
closure: the error of `db.Begin(true)` if the transaction cannot begin (the
closure is then not run), and the error of `tx.Commit()` if the transaction
cannot commit (its changes are then rolled back). -/
structure TxOutcome where
  beginErr : Option Err
  commitErr : Option Err
  deriving DecidableEq, Repr

/-- The method `putAlert`; `now` is what `time.Now()` returns and `tx` what
the transaction of `db.Update` does. The result is the returned error and the
store afterwards. -/
def putAlert {V X : Type} (J : JSON V (alertData X)) (now : Time) (tx : TxOutcome)
    (b : boltStore V) (a : alertData X) : Outcome (Option Err × boltStore V) :=
  let a := fillDefaults now a
  match J.Marshal a with
  | .error err => .returns (some err, b)
  | .ok data =>
    match tx.beginErr with
    | some err => .returns (some err, b)
    | none =>
      match b.db.alerts with
      | none => .panics
      | some bk =>
        match Bucket.Put J.tooLarge bk a.ID data with
        | .error err => .returns (some err, b)
        | .ok bk1 =>
          match tx.commitErr with
          | some err => .returns (some err, b)
          | none => .returns (none, { db := { alerts := some bk1 } })

/-- The method `getAlert`: the stored value, nil (`none`) when absent. -/
def getAlert {V : Type} (b : boltStore V) (id : Bytes) : Outcome (Option V) :=
  match b.db.alerts with
  | none => .panics
  | some bk => .returns (bk.Get id)

/-- The method `deleteAlert`; `tx` is what the transaction of `db.Update`
does. The result is the returned error, which is the error of `db.Update`, and
the store afterwards. -/
def deleteAlert {V : Type} (tx : TxOutcome) (b : boltStore V) (id : Bytes) :
    Outcome (Option Err × boltStore V) :=
  match tx.beginErr with
  | some err => .returns (some err, b)
  | none =>
    match b.db.alerts with
    | none => .panics
    | some bk =>
      match tx.commitErr with
      | some err => .returns (some err, b)
      | none => .returns (none, { db := { alerts := some (Bucket.Delete id bk) } })

/-- The loop of `getAlertsByPrefix`: `cur` is what the cursor has yet to
visit, `alert` the variable declared before the loop, `alerts` the slice
collected so far. The result is the slice and the error the closure returns.
A key the cursor returns is a stored key, so `k != nil` holds exactly when
`cur` is not empty. -/
def scanLoop {V A : Type} (J : JSON V A) (p : Bytes) :
    List (Bytes × V) → A → List A → List A × Option Err
  | [], _, alerts => (alerts, none)
  | (k, v) :: rest, alert, alerts =>
    if HasPrefix k p then
      match J.Unmarshal v with
      | .error err => (alerts, some err)
      | .ok store => scanLoop J p rest (store alert) (alerts ++ [store alert])
    else (alerts, none)

/-- The method `getAlertsByPrefix`: the marshalled slice (nil when
`json.Marshal` fails, as its error is dropped), `len(alerts)` and the error. -/
def getAlertsByPrefix {V X : Type} [Inhabited X] (J : JSON V (alertData X))
    (b : boltStore V) (p : Bytes) : Outcome (Option V × Nat × Option Err) :=
  match b.db.alerts with
  | none => .panics
  | some bk =>
    let r := scanLoop J p (Bucket.Seek p bk) alertData.zero []
    .returns ((J.MarshalSlice (some r.1)).toOption, r.1.length, r.2)

/-! ## what a scan is compared with -/

/-- The values the loop variable takes when the texts `vs` are decoded into
it one after the other, starting from `a` and stopping at the first text that
does not decode. -/
def decodeChain {V A : Type} (J : JSON V A) : A → List V → List A
  | _, [] => []
  | a, v :: vs =>
    match J.Unmarshal v with
    | .error _ => []
    | .ok store => store a :: decodeChain J (store a) vs

/-- The alert a text decodes to when the destination is a fresh alert, nil
when the text does not decode. -/
def freshDecode {V X : Type} [Inhabited X] (J : JSON V (alertData X)) (v : V) :
    Option (alertData X) :=
  match J.Unmarshal v with
  | .error _ => none
  | .ok store => some (store alertData.zero)

/-- The error of the first text among `vs` that does not decode. -/
def firstError {V A : Type} (J : JSON V A) : List V → Option Err
  | [] => none
  | v :: vs =>
    match J.Unmarshal v with
    | .error err => some err
    | .ok _ => firstError J vs

/-- The pairs of a bucket whose key starts with `p`, in cursor order. -/
def Bucket.matching {V : Type} (p : Bytes) (bk : Bucket V) : List (Bytes × V) :=
  bk.filter (fun e => HasPrefix e.1 p)

/-! ## a model of encoding/json on alertData

Texts are identified with what `encoding/json` makes of them for an
`alertData` destination without caller-defined fields. -/

/-- A member of a JSON object: one of the three fields with a value of the
field's type (for `Time`, a string in RFC 3339 form denoting the instant), or
a member that no field matches, which `json.Unmarshal` skips. -/
inductive Member where
  | ID (s : Bytes)
  | Status (s : Bytes)
  | Time (t : Time)
  | other (name : Bytes)
  deriving DecidableEq, Repr

/-- A stored or produced text: not a JSON text of a shape `alertData` accepts,
the text `null`, an object, or an array of objects. -/
inductive Doc where
  | invalid (raw : Bytes)
  | null
  | object (ms : List Member)
  | array (es : List (List Member))
  deriving DecidableEq, Repr

/-- An alert without caller-defined fields. -/
abbrev Alert := alertData Unit

/-- What decoding one member does to the destination. -/
def Member.store (a : Alert) : Member → Alert
  | .ID s => { a with ID := s }
  | .Status s => { a with Status := s }
  | .Time t => { a with Time := t }
  | .other _ => a

/-- First instant of year 0 and first instant of year 10000, in nanoseconds
since year 1: `Time.MarshalJSON` accepts the years in between. -/
def yearZero : Int := -366 * 86400 * 1000000000

/-- See `yearZero`. -/
def yearTenThousand : Int := 3652059 * 86400 * 1000000000

/-- The members `json.Marshal` writes for an alert, or the error of
`Time.MarshalJSON`. -/
def Doc.members (a : Alert) : Except Err (List Member) :=
  if a.Time < yearZero ∨ yearTenThousand ≤ a.Time then
    .error "Time.MarshalJSON: year outside of range [0,9999]"
  else .ok [.ID a.ID, .Status a.Status, .Time a.Time]

/-- The model of `encoding/json`: strings are valid UTF-8 and texts are
shorter than `bolt.MaxValueSize`. -/
def json : JSON Doc Alert where
  Marshal a := (Doc.members a).map Doc.object
  MarshalSlice
    | none => .ok Doc.null
    | some l => (l.mapM Doc.members).map Doc.array
  Unmarshal
    | .invalid _ => .error "invalid character"
    | .null => .ok id
    | .object ms => .ok (fun a => ms.foldl Member.store a)
    | .array _ => .error "json: cannot unmarshal array into Go value of type main.alertData"
  tooLarge _ := false

/-! ## net/http -/

/-- The map `http.Header`, one value per key. -/
abbrev Header := List (String × String)

/-- The method `Header.Set`. -/
def Header.Set (h : Header) (k v : String) : Header :=
  h.filter (fun e => e.1 != k) ++ [(k, v)]

/-- The method `Header.Del`. -/
def Header.Del (h : Header) (k : String) : Header :=
  h.filter (fun e => e.1 != k)

/-- The method `Header.Get`, with `none` for a key that is not set. -/
def Header.Get (h : Header) (k : String) : Option String :=
  (h.find? (fun e => e.1 == k)).map Prod.snd

/-- An `http.ResponseWriter`: the header map the handler edits, the status
and the headers that went out with it once the header has been written, and
the body written so far. -/
structure ResponseWriter where
  header : Header
  sent : Option (Nat × Header)
  body : Bytes
  deriving DecidableEq, Repr

/-- The method `WriteHeader`: the first call fixes status and headers, a
later call changes nothing. -/
def ResponseWriter.WriteHeader (w : ResponseWriter) (code : Nat) : ResponseWriter :=
  match w.sent with
  | some _ => w
  | none => { w with sent := some (code, w.header) }

/-- The method `Write`: an implicit `WriteHeader(http.StatusOK)` if the header
has not been written, then the bytes. -/
def ResponseWriter.Write (w : ResponseWriter) (p : Bytes) : ResponseWriter :=
  let w := w.WriteHeader 200
  { w with body := w.body ++ p }

/-- The function `http.Error`: it deletes `Content-Length`, sets two headers,
calls `WriteHeader(code)`, then writes the message and a newline as body. -/
def httpError (w : ResponseWriter) (msg : String) (code : Nat) : ResponseWriter :=
  let h := (((w.header.Del "Content-Length").Set
    "Content-Type" "text/plain; charset=utf-8").Set
    "X-Content-Type-Options" "nosniff")
  let w := { w with header := h }
  let w := w.WriteHeader code
  w.Write (str msg ++ [10])

/-- The constant `http.StatusInternalServerError`. -/
def StatusInternalServerError : Nat := 500

/-- The function `strconv.Itoa`. -/
def Itoa (i : Int) : String := toString i

/-- How `tx.WriteTo(w)` goes: it writes the whole file image, or fails before
its first `Write` (the file cannot be opened), or fails once `n` bytes have
been written. -/
inductive Streaming where
  | complete
  | failsBeforeWrite (err : Err)
  | failsAfter (n : Nat) (err : Err)
  deriving DecidableEq, Repr

/-- The method `Tx.WriteTo` on the file image `file` of the read
transaction, whose length is what `tx.Size()` reports. -/
def TxWriteTo (file : Bytes) (s : Streaming) (w : ResponseWriter) :
    ResponseWriter × Option Err :=
  match s with
  | .complete => (w.Write file, none)
  | .failsBeforeWrite err => (w, some err)
  | .failsAfter n err => (w.Write (file.take n), some err)

/-- The headers `backup` sets inside the read transaction; `int(tx.Size())`
is the length of the file image. -/
def backupHeader (file : Bytes) (h : Header) : Header :=
  ((h.Set "Content-Type" "application/octet-stream").Set
    "Content-Disposition" "attachment; filename=\"alertboard.db\"").Set
    "Content-Length" (Itoa (Int.ofNat file.length))

/-- The method `backup`: the response writer afterwards. The store enters
through the read transaction only: `file` is the image of the database file
the transaction sees and `s` is how `tx.WriteTo` goes. -/
def backup (file : Bytes) (s : Streaming) (w : ResponseWriter) : ResponseWriter :=
  let w := { w with header := backupHeader file w.header }
  match TxWriteTo file s w with
  | (w, some err) => httpError w err StatusInternalServerError
  | (w, none) => w

/-! ## sample alerts and stores -/

/-- An instant in the year 2016. -/
def sampleTime : Time := 63600000000 * 1000000000

/-- The alert with ID `x1`, empty `Status` and zero `Time`. -/
def alertX1 : Alert := { ID := str "x1", Status := [], Time := 0, extra := () }

/-- The alert with ID `x2`, `Status` `Closed` and `Time` `sampleTime`. -/
def alertX2 : Alert :=
  { ID := str "x2", Status := str "Closed", Time := sampleTime, extra := () }

/-- A second alert with ID `x1`. -/
def alertX1b : Alert :=
  { ID := str "x1", Status := str "Acked", Time := sampleTime, extra := () }

/-- The text `json.Marshal` writes for an alert with the given fields. -/
def docOf (id status : String) (t : Time) : Doc :=
  .object [.ID (str id), .Status (str status), .Time t]

/-- A bucket with the keys `a1`, `a2`, `b1`. -/
def bucketAAB : Bucket Doc :=
  [(str "a1", docOf "a1" "Open" sampleTime), (str "a2", docOf "a2" "Closed" sampleTime),
   (str "b1", docOf "b1" "Open" sampleTime)]

/-- A bucket with the keys `x1`, `x2`. -/
def bucketX : Bucket Doc :=
  [(str "x1", docOf "x1" "Open" sampleTime), (str "x2", docOf "x2" "Closed" sampleTime)]

/-- A bucket whose second text under `a` is not JSON. -/
def bucketBroken : Bucket Doc :=
  [(str "a1", docOf "a1" "Open" sampleTime), (str "a2", .invalid (str "oops")),
   (str "a3", docOf "a3" "Open" sampleTime)]

/-- A bucket whose second text, `{"ID":"a2"}`, has no `Status` and no `Time`
member. -/
def bucketSparse : Bucket Doc :=
  [(str "a1", docOf "a1" "Closed" sampleTime), (str "a2", .object [.ID (str "a2")])]

/-- An environment in which `bolt.Open` creates an empty database and the
commit of the transaction that creates the bucket fails. -/
def envCommitFails : InitEnv Doc :=
  { opened := .ok { alerts := none }, createBucket := none, commit := some "write error" }

/-- A write transaction that begins and commits. -/
def committing : TxOutcome := { beginErr := none, commitErr := none }

/-- A write transaction whose commit fails. -/
def commitFails : TxOutcome := { beginErr := none, commitErr := some "write error" }

/-- A file image of four bytes. -/
def sampleFile : Bytes := [1, 2, 3, 4]

/-- A response writer nothing has been written to. -/
def freshWriter : ResponseWriter := { header := [], sent := none, body := [] }

/-! ## byte order -/

theorem bytesLess_cons (x y : Nat) (xs ys : Bytes) :
    bytesLess (x :: xs) (y :: ys) = (decide (x < y) || (decide (x = y) && bytesLess xs ys)) := by
  rw [bytesLess]
  by_cases h1 : x < y
  · simp [h1]
  · by_cases h2 : y < x
    · have h3 : x ≠ y := by omega
      simp [h1, h2, h3]
    · have h3 : x = y := by omega
      simp [h3]

theorem bytesLess_irrefl (a : Bytes) : bytesLess a a = false := by
  induction a with
  | nil => rfl
  | cons x xs ih => simp [bytesLess_cons, ih]

theorem bytesLess_trans : ∀ (a b c : Bytes),
    bytesLess a b = true → bytesLess b c = true → bytesLess a c = true
  | [], [], _, h, _ => by simp [bytesLess] at h
  | [], _ :: _, [], _, h => by simp [bytesLess] at h
  | [], _ :: _, _ :: _, _, _ => by simp [bytesLess]
  | _ :: _, [], _, h, _ => by simp [bytesLess] at h
  | _ :: _, _ :: _, [], _, h => by simp [bytesLess] at h
  | x :: xs, y :: ys, z :: zs, h1, h2 => by
    rw [bytesLess_cons] at h1 h2 ⊢
    simp only [Bool.or_eq_true, Bool.and_eq_true, decide_eq_true_eq] at h1 h2 ⊢
    rcases h1 with h1 | ⟨h1, h1r⟩
    · rcases h2 with h2 | ⟨h2, _⟩
      · left; omega
      · left; omega
    · rcases h2 with h2 | ⟨h2, h2r⟩
      · left; omega
      · right; exact ⟨by omega, bytesLess_trans xs ys zs h1r h2r⟩

theorem bytesLess_total : ∀ (a b : Bytes),
    bytesLess a b = false → a ≠ b → bytesLess b a = true
  | [], [], _, h => absurd rfl h
  | [], _ :: _, h, _ => by simp [bytesLess] at h
  | _ :: _, [], _, _ => by simp [bytesLess]
  | x :: xs, y :: ys, h1, h2 => by
    rw [bytesLess_cons] at h1 ⊢
    simp only [Bool.or_eq_false_iff, Bool.and_eq_false_imp, decide_eq_false_iff_not,
      decide_eq_true_eq, Bool.or_eq_true, Bool.and_eq_true] at h1 ⊢
    by_cases hxy : x = y
    · subst hxy
      right
      refine ⟨rfl, bytesLess_total xs ys (h1.2 rfl) ?_⟩
      intro h
      exact h2 (by rw [h])
    · left; omega

/-- A key that starts with `p` is not smaller than `p`. -/
theorem not_less_of_hasPrefix : ∀ (k p : Bytes), HasPrefix k p = true → bytesLess k p = false
  | [], [], _ => rfl
  | _ :: _, [], _ => rfl
  | [], _ :: _, h => by simp [HasPrefix] at h
  | x :: xs, y :: ys, h => by
    simp only [HasPrefix, Bool.and_eq_true, beq_iff_eq] at h
    rw [bytesLess_cons, h.1, not_less_of_hasPrefix xs ys h.2]
    simp

/-- Past a key that is not smaller than `p` and does not start with `p`, no
key starts with `p`. -/
theorem no_hasPrefix_after : ∀ (p k k2 : Bytes),
    bytesLess k p = false → HasPrefix k p = false → bytesLess k k2 = true →
    HasPrefix k2 p = false
  | [], _, _, _, h, _ => by cases ‹Bytes› <;> simp [HasPrefix] at h
  | _ :: _, [], _, h, _, _ => by simp [bytesLess] at h
  | _ :: _, _ :: _, [], _, _, h => by simp [bytesLess] at h
  | y :: ys, x :: xs, z :: zs, h1, h2, h3 => by
    rw [bytesLess_cons] at h1 h3
    simp only [HasPrefix, Bool.and_eq_false_imp, beq_iff_eq] at h2 ⊢
    simp only [Bool.or_eq_false_iff, Bool.and_eq_false_imp, decide_eq_false_iff_not,
      decide_eq_true_eq, Bool.or_eq_true, Bool.and_eq_true] at h1 h3
    intro hzy
    subst hzy
    rcases h3 with h3 | ⟨h3, h3r⟩
    · omega
    · subst h3
      exact no_hasPrefix_after ys xs zs (h1.2 rfl) (h2 rfl) h3r

/-! ## the cursor -/

theorem matching_cons_of_hasPrefix {V : Type} (p k : Bytes) (v : V) (rest : Bucket V)
    (h : HasPrefix k p = true) :
    Bucket.matching p ((k, v) :: rest) = (k, v) :: Bucket.matching p rest := by
  simp [Bucket.matching, h]

theorem matching_cons_of_not_hasPrefix {V : Type} (p k : Bytes) (v : V) (rest : Bucket V)
    (h : HasPrefix k p = false) :
    Bucket.matching p ((k, v) :: rest) = Bucket.matching p rest := by
  simp [Bucket.matching, h]

theorem matching_eq_nil {V : Type} (p : Bytes) (bk : Bucket V)
    (h : ∀ e ∈ bk, HasPrefix e.1 p = false) : Bucket.matching p bk = [] := by
  induction bk with
  | nil => rfl
  | cons e rest ih =>
    obtain ⟨k, v⟩ := e
    rw [matching_cons_of_not_hasPrefix p k v rest (h (k, v) (List.mem_cons_self _ _))]
    exact ih (fun e he => h e (List.mem_cons_of_mem _ he))

/-- On an ascending run of keys none of which is smaller than `p`, the loop
collects the pairs whose key starts with `p`, all of them. -/
theorem scanLoop_block {V A : Type} (J : JSON V A) (p : Bytes) :
    ∀ (cur : List (Bytes × V)) (a : A) (acc : List A), Bucket.WF cur →
      (∀ e ∈ cur, bytesLess e.1 p = false) →
      scanLoop J p cur a acc =
        (acc ++ decodeChain J a ((Bucket.matching p cur).map Prod.snd),
         firstError J ((Bucket.matching p cur).map Prod.snd))
  | [], a, acc, _, _ => by simp [scanLoop, Bucket.matching, decodeChain, firstError]
  | (k, v) :: rest, a, acc, hwf, hge => by
    have hwf2 := List.pairwise_cons.1 hwf
    by_cases hp : HasPrefix k p = true
    · rw [matching_cons_of_hasPrefix p k v rest hp]
      simp only [scanLoop, hp, if_true, List.map_cons, decodeChain, firstError]
      cases hu : J.Unmarshal v with
      | error err => simp
      | ok store =>
        simp only []
        rw [scanLoop_block J p rest (store a) (acc ++ [store a]) hwf2.2
          (fun e he => hge e (List.mem_cons_of_mem _ he))]
        simp
    · have hp2 : HasPrefix k p = false := by simpa using hp
      have hnone : Bucket.matching p ((k, v) :: rest) = [] := by
        apply matching_eq_nil
        intro e he
        rcases List.mem_cons.1 he with rfl | he
        · exact hp2
        · exact no_hasPrefix_after p k e.1 (hge _ (List.mem_cons_self _ _)) hp2 (hwf2.1 e he)
      rw [hnone]
      simp [scanLoop, hp2, decodeChain, firstError]

/-- What `Seek` leaves: an ascending run of keys not smaller than `p` that
holds every pair whose key starts with `p`. -/
theorem Seek_spec {V : Type} (p : Bytes) :
    ∀ (bk : Bucket V), Bucket.WF bk →
      Bucket.WF (Bucket.Seek p bk) ∧ (∀ e ∈ Bucket.Seek p bk, bytesLess e.1 p = false) ∧
      Bucket.matching p (Bucket.Seek p bk) = Bucket.matching p bk
  | [], _ => by simp [Bucket.Seek, Bucket.WF]
  | (k, v) :: rest, hwf => by
    have hwf2 := List.pairwise_cons.1 hwf
    by_cases hk : bytesLess k p = true
    · have hs : Bucket.Seek p ((k, v) :: rest) = Bucket.Seek p rest := by
        simp [Bucket.Seek, hk]
      have hp : HasPrefix k p = false := by
        cases hh : HasPrefix k p with
        | false => rfl
        | true => rw [not_less_of_hasPrefix k p hh] at hk; cases hk
      rw [hs, matching_cons_of_not_hasPrefix p k v rest hp]
      exact Seek_spec p rest hwf2.2
    · have hk2 : bytesLess k p = false := by simpa using hk
      have hs : Bucket.Seek p ((k, v) :: rest) = (k, v) :: rest := by
        simp [Bucket.Seek, hk2]
      rw [hs]
      refine ⟨hwf, ?_, rfl⟩
      intro e he
      rcases List.mem_cons.1 he with rfl | he
      · exact hk2
      · cases hh : bytesLess e.1 p with
        | false => rfl
        | true => rw [bytesLess_trans k e.1 p (hwf2.1 e he) hh] at hk2; cases hk2

/-- The scan of a bucket, told by the pairs whose key starts with `p`. -/
theorem getAlertsByPrefix_eq {V X : Type} [Inhabited X] (J : JSON V (alertData X))
    (bk : Bucket V) (p : Bytes) (hwf : Bucket.WF bk) :
    getAlertsByPrefix J (boltStore.holding bk) p =
      .returns
        ((J.MarshalSlice (some (decodeChain J alertData.zero
            ((Bucket.matching p bk).map Prod.snd)))).toOption,
         (decodeChain J alertData.zero ((Bucket.matching p bk).map Prod.snd)).length,
         firstError J ((Bucket.matching p bk).map Prod.snd)) := by
  obtain ⟨h1, h2, h3⟩ := Seek_spec p bk hwf
  simp only [getAlertsByPrefix, boltStore.holding]
  rw [scanLoop_block J p (Bucket.Seek p bk) alertData.zero [] h1 h2, h3]
  simp

theorem decodeChain_of_all_decode {V A : Type} (J : JSON V A) :
    ∀ (vs : List V) (a : A), (∀ v ∈ vs, ∃ f, J.Unmarshal v = .ok f) →
      (decodeChain J a vs).length = vs.length ∧ firstError J vs = none
  | [], _, _ => by simp [decodeChain, firstError]
  | v :: vs, a, h => by
    obtain ⟨f, hf⟩ := h v (List.mem_cons_self _ _)
    have ih := decodeChain_of_all_decode J vs (f a) (fun x hx => h x (List.mem_cons_of_mem _ hx))
    simp [decodeChain, firstError, hf, ih.1, ih.2]

theorem decodeChain_until_error {V A : Type} (J : JSON V A) (v : V) (err : Err) (vs2 : List V)
    (hv : J.Unmarshal v = .error err) :
    ∀ (vs1 : List V) (a : A), (∀ x ∈ vs1, ∃ f, J.Unmarshal x = .ok f) →
      decodeChain J a (vs1 ++ v :: vs2) = decodeChain J a vs1 ∧
      firstError J (vs1 ++ v :: vs2) = some err
  | [], _, _ => by simp [decodeChain, firstError, hv]
  | x :: vs1, a, h => by
    obtain ⟨f, hf⟩ := h x (List.mem_cons_self _ _)
    have ih := decodeChain_until_error J v err vs2 hv vs1 (f a)
      (fun y hy => h y (List.mem_cons_of_mem _ hy))
    simp [decodeChain, firstError, hf, ih.1, ih.2]

/-! ## the bucket -/

theorem Get_cons {V : Type} (e : Bytes × V) (rest : Bucket V) (k : Bytes) :
    Bucket.Get (e :: rest) k =
      if bytesLess e.1 k then Bucket.Get rest k else if e.1 = k then some e.2 else none := by
  by_cases h : bytesLess e.1 k = true
  · simp [Bucket.Get, Bucket.Seek, h]
  · simp [Bucket.Get, Bucket.Seek, h]

theorem mem_of_Get {V : Type} (k : Bytes) (v : V) :
    ∀ (bk : Bucket V), Bucket.Get bk k = some v → (k, v) ∈ bk
  | [], h => by simp [Bucket.Get, Bucket.Seek] at h
  | e :: rest, h => by
    rw [Get_cons] at h
    split_ifs at h with h1 h2
    · exact List.mem_cons_of_mem _ (mem_of_Get k v rest h)
    · obtain ⟨k2, v2⟩ := e
      simp only [Option.some.injEq] at h
      simp only at h2
      subst h2 h
      exact List.mem_cons_self _ _

theorem Get_of_mem {V : Type} (k : Bytes) (v : V) :
    ∀ (bk : Bucket V), Bucket.WF bk → (k, v) ∈ bk → Bucket.Get bk k = some v
  | [], _, h => by simp at h
  | e :: rest, hwf, h => by
    have hwf2 := List.pairwise_cons.1 hwf
    rw [Get_cons]
    rcases List.mem_cons.1 h with rfl | h
    · simp [bytesLess_irrefl]
    · have := hwf2.1 (k, v) h
      simp only at this
      rw [if_pos this]
      exact Get_of_mem k v rest hwf2.2 h

theorem Get_eq_none {V : Type} (k : Bytes) (bk : Bucket V) (h : k ∉ bk.keys) :
    Bucket.Get bk k = none := by
  cases hg : Bucket.Get bk k with
  | none => rfl
  | some v =>
    exfalso
    apply h
    have := mem_of_Get k v bk hg
    exact List.mem_map.2 ⟨(k, v), this, rfl⟩

theorem Get_insert_self {V : Type} (k : Bytes) (v : V) :
    ∀ (bk : Bucket V), Bucket.Get (Bucket.insert k v bk) k = some v
  | [] => by simp [Bucket.insert, Get_cons, bytesLess_irrefl]
  | e :: rest => by
    by_cases h1 : bytesLess e.1 k = true
    · simp only [Bucket.insert, h1, if_true, Get_cons]
      exact Get_insert_self k v rest
    · by_cases h2 : e.1 = k
      · simp [Bucket.insert, h1, h2, Get_cons, bytesLess_irrefl]
      · simp [Bucket.insert, h1, h2, Get_cons, bytesLess_irrefl]

theorem keys_insert_insert {V : Type} (k : Bytes) (v v2 : V) :
    ∀ (bk : Bucket V),
      Bucket.keys (Bucket.insert k v2 (Bucket.insert k v bk)) = Bucket.keys (Bucket.insert k v bk)
  | [] => by simp [Bucket.insert, Bucket.keys, bytesLess_irrefl]
  | e :: rest => by
    by_cases h1 : bytesLess e.1 k = true
    · have ih := keys_insert_insert k v v2 rest
      simp only [Bucket.keys] at ih
      simp [Bucket.insert, h1, Bucket.keys, ih]
    · by_cases h2 : e.1 = k
      · simp [Bucket.insert, h1, h2, Bucket.keys, bytesLess_irrefl]
      · simp [Bucket.insert, h1, h2, Bucket.keys, bytesLess_irrefl]

theorem insert_cons_lt {V : Type} (k : Bytes) (v : V) (e : Bytes × V) (rest : Bucket V)
    (h : bytesLess e.1 k = true) :
    Bucket.insert k v (e :: rest) = e :: Bucket.insert k v rest := by
  simp [Bucket.insert, h]

theorem insert_cons_eq {V : Type} (k : Bytes) (v : V) (e : Bytes × V) (rest : Bucket V)
    (h : e.1 = k) : Bucket.insert k v (e :: rest) = (k, v) :: rest := by
  simp [Bucket.insert, h, bytesLess_irrefl]

theorem insert_cons_gt {V : Type} (k : Bytes) (v : V) (e : Bytes × V) (rest : Bucket V)
    (h1 : bytesLess e.1 k = false) (h2 : e.1 ≠ k) :
    Bucket.insert k v (e :: rest) = (k, v) :: e :: rest := by
  simp [Bucket.insert, h1, h2]

theorem Delete_cons_lt {V : Type} (k : Bytes) (e : Bytes × V) (rest : Bucket V)
    (h : bytesLess e.1 k = true) :
    Bucket.Delete k (e :: rest) = e :: Bucket.Delete k rest := by
  simp [Bucket.Delete, h]

theorem Delete_cons_eq {V : Type} (k : Bytes) (e : Bytes × V) (rest : Bucket V)
    (h : e.1 = k) : Bucket.Delete k (e :: rest) = rest := by
  simp [Bucket.Delete, h, bytesLess_irrefl]

theorem Delete_cons_gt {V : Type} (k : Bytes) (e : Bytes × V) (rest : Bucket V)
    (h1 : bytesLess e.1 k = false) (h2 : e.1 ≠ k) :
    Bucket.Delete k (e :: rest) = e :: rest := by
  simp [Bucket.Delete, h1, h2]

theorem mem_insert {V : Type} (k : Bytes) (v : V) (x : Bytes × V) :
    ∀ (bk : Bucket V), x ∈ Bucket.insert k v bk → x = (k, v) ∨ x ∈ bk
  | [], h => by simpa [Bucket.insert] using h
  | e :: rest, h => by
    by_cases h1 : bytesLess e.1 k = true
    · rw [insert_cons_lt k v e rest h1, List.mem_cons] at h
      rcases h with h | h
      · exact Or.inr (h ▸ List.mem_cons_self _ _)
      · rcases mem_insert k v x rest h with h | h
        · exact Or.inl h
        · exact Or.inr (List.mem_cons_of_mem _ h)
    · by_cases h2 : e.1 = k
      · rw [insert_cons_eq k v e rest h2, List.mem_cons] at h
        rcases h with h | h
        · exact Or.inl h
        · exact Or.inr (List.mem_cons_of_mem _ h)
      · rw [insert_cons_gt k v e rest (by simpa using h1) h2, List.mem_cons, List.mem_cons] at h
        rcases h with h | h | h
        · exact Or.inl h
        · exact Or.inr (h ▸ List.mem_cons_self _ _)
        · exact Or.inr (List.mem_cons_of_mem _ h)

/-- Insertion keeps the keys strictly ascending. -/
theorem WF_insert {V : Type} (k : Bytes) (v : V) :
    ∀ (bk : Bucket V), Bucket.WF bk → Bucket.WF (Bucket.insert k v bk)
  | [], _ => by simp [Bucket.insert, Bucket.WF]
  | e :: rest, hwf => by
    have hwf2 := List.pairwise_cons.1 hwf
    by_cases h1 : bytesLess e.1 k = true
    · rw [insert_cons_lt k v e rest h1]
      refine List.pairwise_cons.2 ⟨?_, WF_insert k v rest hwf2.2⟩
      intro x hx
      rcases mem_insert k v x rest hx with hx | hx
      · rw [hx]; exact h1
      · exact hwf2.1 x hx
    · by_cases h2 : e.1 = k
      · rw [insert_cons_eq k v e rest h2]
        refine List.pairwise_cons.2 ⟨?_, hwf2.2⟩
        intro x hx
        have := hwf2.1 x hx
        rwa [h2] at this
      · rw [insert_cons_gt k v e rest (by simpa using h1) h2]
        have hk : bytesLess k e.1 = true :=
          bytesLess_total e.1 k (by simpa using h1) h2
        refine List.pairwise_cons.2 ⟨?_, hwf⟩
        intro x hx
        rcases List.mem_cons.1 hx with hx | hx
        · rw [hx]; exact hk
        · exact bytesLess_trans k e.1 x.1 hk (hwf2.1 x hx)

/-- In a well-formed bucket a key is stored once. -/
theorem filter_key_of_Get {V : Type} (k : Bytes) (v : V) :
    ∀ (bk : Bucket V), Bucket.WF bk → Bucket.Get bk k = some v →
      bk.filter (fun e => decide (e.1 = k)) = [(k, v)]
  | [], _, h => by simp [Bucket.Get, Bucket.Seek] at h
  | e :: rest, hwf, h => by
    have hwf2 := List.pairwise_cons.1 hwf
    rw [Get_cons] at h
    split_ifs at h with h1 h2
    · have hne : e.1 ≠ k := by
        intro hc
        rw [hc, bytesLess_irrefl] at h1
        cases h1
      rw [List.filter_cons_of_neg (by simpa using hne)]
      exact filter_key_of_Get k v rest hwf2.2 h
    · obtain ⟨k2, v2⟩ := e
      simp only [Option.some.injEq] at h
      simp only at h2
      subst h2 h
      have hrest : rest.filter (fun e => decide (e.1 = k2)) = [] := by
        rw [List.filter_eq_nil_iff]
        intro x hx
        have hlt := hwf2.1 x hx
        simp only at hlt
        simp only [decide_eq_true_eq]
        intro hc
        rw [hc, bytesLess_irrefl] at hlt
        cases hlt
      rw [List.filter_cons_of_pos (by simp), hrest]

/-- On a well-formed bucket `Delete` removes the pairs stored under the key. -/
theorem Delete_eq_filter {V : Type} (k : Bytes) :
    ∀ (bk : Bucket V), Bucket.WF bk →
      Bucket.Delete k bk = bk.filter (fun e => decide (e.1 ≠ k))
  | [], _ => rfl
  | e :: rest, hwf => by
    have hwf2 := List.pairwise_cons.1 hwf
    by_cases h1 : bytesLess e.1 k = true
    · have hne : e.1 ≠ k := by
        intro hc
        rw [hc, bytesLess_irrefl] at h1
        cases h1
      rw [Delete_cons_lt k e rest h1, List.filter_cons_of_pos (by simpa using hne),
        Delete_eq_filter k rest hwf2.2]
    · have hrest : rest.filter (fun e => decide (e.1 ≠ k)) = rest := by
        rw [List.filter_eq_self]
        intro x hx
        simp only [ne_eq, decide_not, Bool.not_eq_true', decide_eq_false_iff_not]
        intro hc
        have hlt := hwf2.1 x hx
        rw [hc] at hlt
        exact h1 hlt
      by_cases h2 : e.1 = k
      · rw [Delete_cons_eq k e rest h2, List.filter_cons_of_neg (by simpa using h2), hrest]
      · rw [Delete_cons_gt k e rest (by simpa using h1) h2,
          List.filter_cons_of_pos (by simpa using h2), hrest]

theorem WF_filter {V : Type} (f : Bytes × V → Bool) (bk : Bucket V) (hwf : Bucket.WF bk) :
    Bucket.WF (bk.filter f) :=
  List.Pairwise.filter f hwf

theorem Seek_subset {V : Type} (p : Bytes) (x : Bytes × V) :
    ∀ (bk : Bucket V), x ∈ Bucket.Seek p bk → x ∈ bk
  | [], h => by simp [Bucket.Seek] at h
  | e :: rest, h => by
    by_cases h1 : bytesLess e.1 p = true
    · simp only [Bucket.Seek, h1, if_true] at h
      exact List.mem_cons_of_mem _ (Seek_subset p x rest h)
    · simpa [Bucket.Seek, h1] using h

theorem fillDefaults_ID {X : Type} (now : Time) (a : alertData X) :
    (fillDefaults now a).ID = a.ID := by
  by_cases h1 : a.Time.IsZero = true <;> by_cases h2 : a.Status = [] <;>
    simp [fillDefaults, h1, h2]

theorem fillDefaults_extra {X : Type} (now : Time) (a : alertData X) :
    (fillDefaults now a).extra = a.extra := by
  by_cases h1 : a.Time.IsZero = true <;> by_cases h2 : a.Status = [] <;>
    simp [fillDefaults, h1, h2]

theorem fillDefaults_Time {X : Type} (now : Time) (a : alertData X) :
    (fillDefaults now a).Time = if a.Time = 0 then now else a.Time := by
  by_cases h1 : a.Time = 0 <;> by_cases h2 : a.Status = [] <;>
    simp [fillDefaults, Time.IsZero, h1, h2]

theorem fillDefaults_Status {X : Type} (now : Time) (a : alertData X) :
    (fillDefaults now a).Status = if a.Status = [] then str "Open" else a.Status := by
  by_cases h1 : a.Time.IsZero = true <;> by_cases h2 : a.Status = [] <;>
    simp [fillDefaults, h1, h2]

/-- A put that returns no error found the bucket and inserted the text of
the alert with its defaults filled in. -/
theorem putAlert_ok {V X : Type} (J : JSON V (alertData X)) (now : Time) (tx : TxOutcome)
    (b b1 : boltStore V) (a : alertData X)
    (h : putAlert J now tx b a = .returns (none, b1)) :
    ∃ d bk, J.Marshal (fillDefaults now a) = .ok d ∧ b.db.alerts = some bk ∧
      b1.db.alerts = some (Bucket.insert a.ID d bk) := by
  unfold putAlert at h
  simp only at h
  cases hm : J.Marshal (fillDefaults now a) with
  | error err => rw [hm] at h; simp at h
  | ok d =>
    rw [hm] at h
    cases hbe : tx.beginErr with
    | some err => rw [hbe] at h; simp at h
    | none =>
      rw [hbe] at h
      cases hb : b.db.alerts with
      | none => rw [hb] at h; simp at h
      | some bk =>
        rw [hb] at h
        simp only [Bucket.Put, fillDefaults_ID] at h
        refine ⟨d, bk, rfl, rfl, ?_⟩
        cases hce : tx.commitErr with
        | some err =>
          rw [hce] at h
          split_ifs at h <;> simp at h
        | none =>
          rw [hce] at h
          split_ifs at h <;> simp at h
          rw [← h]

/-! ## put and get -/

theorem json_roundTrip (x : Alert) (d : Doc) (h : json.Marshal x = .ok d) :
    ∃ f, json.Unmarshal d = .ok f ∧ f alertData.zero = x := by
  simp only [json, Doc.members] at h
  split_ifs at h
  · simp [Except.map] at h
  · simp only [Except.map, Except.ok.injEq] at h
    subst h
    exact ⟨_, rfl, rfl⟩

/-- C1: when `putAlert(a)` returns no error, `getAlert(a.ID)` returns a text
that decodes, into a fresh alert, to `a` with `Time` replaced by the current
time if it was zero and `Status` by `Open` if it was empty, and with every
other field as given; this assumes that decoding into a fresh alert undoes
encoding. A put that returns no error had a non-empty ID, so that condition
needs no hypothesis. -/
theorem putAlert_getAlert_roundTrip {V X : Type} [Inhabited X] (J : JSON V (alertData X))
    (now : Time) (tx : TxOutcome) (b b1 : boltStore V) (a : alertData X)
    (hrt : ∀ (x : alertData X) (d : V), J.Marshal x = .ok d →
      ∃ f, J.Unmarshal d = .ok f ∧ f alertData.zero = x)
    (hput : putAlert J now tx b a = .returns (none, b1)) :
    ∃ d f, getAlert b1 a.ID = .returns (some d) ∧ J.Unmarshal d = .ok f ∧
      (f alertData.zero).ID = a.ID ∧ (f alertData.zero).extra = a.extra ∧
      (f alertData.zero).Time = (if a.Time = 0 then now else a.Time) ∧
      (f alertData.zero).Status = (if a.Status = [] then str "Open" else a.Status) := by
  obtain ⟨d, bk, hm, _, hb1⟩ := putAlert_ok J now tx b b1 a hput
  obtain ⟨f, hf, hx⟩ := hrt _ d hm
  refine ⟨d, f, ?_, hf, ?_, ?_, ?_, ?_⟩
  · simp [getAlert, hb1, Get_insert_self]
  · rw [hx, fillDefaults_ID]
  · rw [hx, fillDefaults_extra]
  · rw [hx, fillDefaults_Time]
  · rw [hx, fillDefaults_Status]

/-- Witness of C1: `x1`, put with empty `Status` and zero `Time` into an empty
store at the instant `sampleTime`, comes back with `Status` `Open` and that
instant; `x2`, put with `Status` `Closed` and a `Time`, comes back as given. -/
theorem putAlert_getAlert_roundTrip_witness :
    (putAlert json sampleTime committing (boltStore.holding []) alertX1 =
      .returns (none, boltStore.holding [(str "x1", docOf "x1" "Open" sampleTime)]) ∧
    ∃ d f, getAlert (boltStore.holding [(str "x1", docOf "x1" "Open" sampleTime)]) alertX1.ID
        = .returns (some d) ∧ json.Unmarshal d = .ok f ∧
      (f alertData.zero).ID = alertX1.ID ∧ (f alertData.zero).extra = alertX1.extra ∧
      (f alertData.zero).Time = (if alertX1.Time = 0 then sampleTime else alertX1.Time) ∧
      (f alertData.zero).Status =
        (if alertX1.Status = [] then str "Open" else alertX1.Status)) ∧
    (putAlert json 7 committing (boltStore.holding []) alertX2 =
      .returns (none, boltStore.holding [(str "x2", docOf "x2" "Closed" sampleTime)]) ∧
    ∃ d f, getAlert (boltStore.holding [(str "x2", docOf "x2" "Closed" sampleTime)]) alertX2.ID
        = .returns (some d) ∧ json.Unmarshal d = .ok f ∧
      (f alertData.zero).ID = alertX2.ID ∧ (f alertData.zero).extra = alertX2.extra ∧
      (f alertData.zero).Time = (if alertX2.Time = 0 then 7 else alertX2.Time) ∧
      (f alertData.zero).Status =
        (if alertX2.Status = [] then str "Open" else alertX2.Status)) :=
  ⟨⟨by decide, putAlert_getAlert_roundTrip json sampleTime committing (boltStore.holding [])
    (boltStore.holding [(str "x1", docOf "x1" "Open" sampleTime)]) alertX1 json_roundTrip
    (by decide)⟩,
   ⟨by decide, putAlert_getAlert_roundTrip json 7 committing (boltStore.holding [])
    (boltStore.holding [(str "x2", docOf "x2" "Closed" sampleTime)]) alertX2 json_roundTrip
    (by decide)⟩⟩

/-- C3: when `putAlert(a)` and then `putAlert(a2)` with the same ID both
return no error, `getAlert` on that ID returns exactly the text of `a2` with its
defaults filled in, the bucket has the same keys as after the first put, and,
if the keys were strictly ascending, that text is the only pair under the ID. -/
theorem putAlert_overwrite {V X : Type} (J : JSON V (alertData X)) (now now2 : Time)
    (tx tx2 : TxOutcome) (b b1 b2 : boltStore V) (a a2 : alertData X) (hid : a2.ID = a.ID)
    (h1 : putAlert J now tx b a = .returns (none, b1))
    (h2 : putAlert J now2 tx2 b1 a2 = .returns (none, b2)) :
    ∃ d2 bk1 bk2, J.Marshal (fillDefaults now2 a2) = .ok d2 ∧
      getAlert b2 a.ID = .returns (some d2) ∧
      b1.db.alerts = some bk1 ∧ b2.db.alerts = some bk2 ∧
      Bucket.keys bk2 = Bucket.keys bk1 ∧ bk2.length = bk1.length ∧
      (Bucket.WF bk1 → bk2.filter (fun e => decide (e.1 = a.ID)) = [(a.ID, d2)]) := by
  obtain ⟨d, bk, _, _, hb1⟩ := putAlert_ok J now tx b b1 a h1
  obtain ⟨d2, bk1, hm2, hb1b, hb2⟩ := putAlert_ok J now2 tx2 b1 b2 a2 h2
  rw [hb1] at hb1b
  simp only [Option.some.injEq] at hb1b
  subst hb1b
  rw [hid] at hb2
  have hkeys := keys_insert_insert a.ID d d2 bk
  refine ⟨d2, _, _, hm2, ?_, hb1, hb2, hkeys, ?_, ?_⟩
  · simp [getAlert, hb2, Get_insert_self]
  · have := congrArg List.length hkeys
    simpa [Bucket.keys] using this
  · intro hwf
    exact filter_key_of_Get a.ID d2 _ (WF_insert a.ID d2 _ hwf) (Get_insert_self a.ID d2 _)

/-- Witness of C3: two alerts with ID `x1` put one after the other into the
bucket with the keys `x1`, `x2`. -/
theorem putAlert_overwrite_witness :
    alertX1b.ID = alertX1.ID ∧
    putAlert json sampleTime committing (boltStore.holding bucketX) alertX1 =
      .returns (none, boltStore.holding bucketX) ∧
    putAlert json sampleTime committing (boltStore.holding bucketX) alertX1b =
      .returns (none, boltStore.holding
        [(str "x1", docOf "x1" "Acked" sampleTime), (str "x2", docOf "x2" "Closed" sampleTime)]) ∧
    ∃ d2 bk1 bk2, json.Marshal (fillDefaults sampleTime alertX1b) = .ok d2 ∧
      getAlert (boltStore.holding
        [(str "x1", docOf "x1" "Acked" sampleTime), (str "x2", docOf "x2" "Closed" sampleTime)])
        alertX1.ID = .returns (some d2) ∧
      (boltStore.holding bucketX).db.alerts = some bk1 ∧
      (boltStore.holding
        [(str "x1", docOf "x1" "Acked" sampleTime),
         (str "x2", docOf "x2" "Closed" sampleTime)]).db.alerts = some bk2 ∧
      Bucket.keys bk2 = Bucket.keys bk1 ∧ bk2.length = bk1.length ∧
      (Bucket.WF bk1 → bk2.filter (fun e => decide (e.1 = alertX1.ID)) = [(alertX1.ID, d2)]) :=
  ⟨by decide, by decide, by decide,
    putAlert_overwrite json sampleTime sampleTime committing committing
      (boltStore.holding bucketX)
      (boltStore.holding bucketX) _ alertX1 alertX1b (by decide) (by decide) (by decide)⟩

/-! ## delete -/

theorem not_mem_keys_filter {V : Type} (k : Bytes) (bk : Bucket V) :
    k ∉ Bucket.keys (bk.filter (fun e => decide (e.1 ≠ k))) := by
  intro h
  obtain ⟨e, he, hk⟩ := List.mem_map.1 h
  have := (List.mem_filter.1 he).2
  simp only [ne_eq, decide_not, Bool.not_eq_true', decide_eq_false_iff_not] at this
  exact this hk

theorem filter_ne_of_not_mem {V : Type} (k : Bytes) (bk : Bucket V) (h : k ∉ Bucket.keys bk) :
    bk.filter (fun e => decide (e.1 ≠ k)) = bk := by
  rw [List.filter_eq_self]
  intro e he
  simp only [ne_eq, decide_not, Bool.not_eq_true', decide_eq_false_iff_not]
  intro hc
  exact h (List.mem_map.2 ⟨e, he, hc⟩)

/-- A delete whose transaction begins and commits returns no error and
leaves the bucket without the pair under the key. -/
theorem deleteAlert_commits {V : Type} (tx : TxOutcome) (bk : Bucket V) (id : Bytes)
    (hb : tx.beginErr = none) (hc : tx.commitErr = none) :
    deleteAlert tx (boltStore.holding bk) id =
      .returns (none, boltStore.holding (Bucket.Delete id bk)) := by
  simp [deleteAlert, boltStore.holding, hb, hc]

/-- A delete whose transaction does not begin or does not commit returns the
error of the transaction and leaves the store as it was. -/
theorem deleteAlert_tx_fails {V : Type} (tx : TxOutcome) (bk : Bucket V) (id : Bytes)
    (err : Err)
    (h : tx.beginErr = some err ∨ (tx.beginErr = none ∧ tx.commitErr = some err)) :
    deleteAlert tx (boltStore.holding bk) id = .returns (some err, boltStore.holding bk) := by
  rcases h with h | ⟨h1, h2⟩
  · simp [deleteAlert, h]
  · simp [deleteAlert, boltStore.holding, h1, h2]

/-- A delete that returns no error left the bucket without the pair under the
key. -/
theorem deleteAlert_ok {V : Type} (tx : TxOutcome) (bk : Bucket V) (id : Bytes)
    (b1 : boltStore V) (h : deleteAlert tx (boltStore.holding bk) id = .returns (none, b1)) :
    b1 = boltStore.holding (Bucket.Delete id bk) := by
  unfold deleteAlert at h
  cases hb : tx.beginErr with
  | some err => rw [hb] at h; simp at h
  | none =>
    rw [hb] at h
    simp only [boltStore.holding] at h
    cases hc : tx.commitErr with
    | some err => rw [hc] at h; simp at h
    | none =>
      rw [hc] at h
      simp only [Outcome.returns.injEq, Prod.mk.injEq, true_and] at h
      rw [← h]
      rfl

/-- C6: on a store with strictly ascending keys and with write transactions
that begin and commit, `deleteAlert(id)` on an id that is not stored returns
no error and leaves the store unchanged; and for every id a first
`deleteAlert(id)` returns no error, a second one returns no error either, and
the state after the second is the state after the first. -/
theorem deleteAlert_idempotent {V : Type} (tx tx2 : TxOutcome) (bk : Bucket V) (id : Bytes)
    (hwf : Bucket.WF bk)
    (hb : tx.beginErr = none) (hc : tx.commitErr = none)
    (hb2 : tx2.beginErr = none) (hc2 : tx2.commitErr = none) :
    (id ∉ Bucket.keys bk →
      deleteAlert tx (boltStore.holding bk) id = .returns (none, boltStore.holding bk)) ∧
    ∃ b1, deleteAlert tx (boltStore.holding bk) id = .returns (none, b1) ∧
      deleteAlert tx2 b1 id = .returns (none, b1) := by
  refine ⟨?_, boltStore.holding (Bucket.Delete id bk), deleteAlert_commits tx bk id hb hc, ?_⟩
  · intro h
    rw [deleteAlert_commits tx bk id hb hc, Delete_eq_filter id bk hwf,
      filter_ne_of_not_mem id bk h]
  · have h2 : Bucket.Delete id (Bucket.Delete id bk) = Bucket.Delete id bk := by
      rw [Delete_eq_filter id bk hwf, Delete_eq_filter id _ (WF_filter _ bk hwf)]
      exact filter_ne_of_not_mem id _ (not_mem_keys_filter id bk)
    rw [deleteAlert_commits tx2 _ id hb2 hc2, h2]

/-- Witness of C6: in the bucket with the keys `x1`, `x2`, deleting the
absent `z9` changes nothing, deleting `x1` leaves `x2` alone and deleting `x1`
again changes nothing more; when the commit fails the delete returns the
error. -/
theorem deleteAlert_idempotent_witness :
    Bucket.WF bucketX ∧ str "z9" ∉ Bucket.keys bucketX ∧
    deleteAlert committing (boltStore.holding bucketX) (str "z9") =
      .returns (none, boltStore.holding bucketX) ∧
    (∃ b1, deleteAlert committing (boltStore.holding bucketX) (str "x1") = .returns (none, b1) ∧
      deleteAlert committing b1 (str "x1") = .returns (none, b1)) ∧
    deleteAlert committing (boltStore.holding bucketX) (str "x1") =
      .returns (none, boltStore.holding [(str "x2", docOf "x2" "Closed" sampleTime)]) ∧
    deleteAlert commitFails (boltStore.holding bucketX) (str "z9") =
      .returns (some "write error", boltStore.holding bucketX) :=
  ⟨by decide, by decide,
    (deleteAlert_idempotent committing committing bucketX (str "z9") (by decide)
      rfl rfl rfl rfl).1 (by decide),
    (deleteAlert_idempotent committing committing bucketX (str "x1") (by decide)
      rfl rfl rfl rfl).2,
    by decide, by decide⟩

/-- C7: on a store with strictly ascending keys, after a `deleteAlert(id)`
that returns no error `getAlert(id)` returns nil, `getAlert(k)` returns what
it returned before for every other key `k`, and a scan by any `p` visits
exactly the pairs it visited before other than the one under `id`. -/
theorem deleteAlert_frame {V X : Type} [Inhabited X] (J : JSON V (alertData X))
    (tx : TxOutcome) (bk : Bucket V) (id : Bytes) (b1 : boltStore V) (hwf : Bucket.WF bk)
    (hdel : deleteAlert tx (boltStore.holding bk) id = .returns (none, b1)) :
    ∃ bk1, b1 = boltStore.holding bk1 ∧
      getAlert (boltStore.holding bk1) id = .returns none ∧
      (∀ k, k ≠ id → getAlert (boltStore.holding bk1) k = getAlert (boltStore.holding bk) k) ∧
      (∀ p, Bucket.matching p bk1 =
          (Bucket.matching p bk).filter (fun e => decide (e.1 ≠ id)) ∧
        getAlertsByPrefix J (boltStore.holding bk1) p =
          .returns
            ((J.MarshalSlice (some (decodeChain J alertData.zero
                ((Bucket.matching p bk1).map Prod.snd)))).toOption,
             (decodeChain J alertData.zero ((Bucket.matching p bk1).map Prod.snd)).length,
             firstError J ((Bucket.matching p bk1).map Prod.snd))) := by
  have hwf1 : Bucket.WF (Bucket.Delete id bk) := by
    rw [Delete_eq_filter id bk hwf]
    exact WF_filter _ bk hwf
  refine ⟨Bucket.Delete id bk, deleteAlert_ok tx bk id b1 hdel, ?_, ?_, ?_⟩
  · simp only [getAlert, boltStore.holding]
    rw [Get_eq_none id _ (by rw [Delete_eq_filter id bk hwf]; exact not_mem_keys_filter id bk)]
  · intro k hk
    simp only [getAlert, boltStore.holding, Outcome.returns.injEq]
    apply Option.ext
    intro v
    constructor
    · intro h
      have hm := mem_of_Get k v _ h
      rw [Delete_eq_filter id bk hwf] at hm
      exact Get_of_mem k v bk hwf (List.mem_filter.1 hm).1
    · intro h
      have hm := mem_of_Get k v _ h
      apply Get_of_mem k v _ hwf1
      rw [Delete_eq_filter id bk hwf]
      exact List.mem_filter.2 ⟨hm, by simpa using hk⟩
  · intro p
    refine ⟨?_, getAlertsByPrefix_eq J _ p hwf1⟩
    rw [Delete_eq_filter id bk hwf]
    simp only [Bucket.matching, List.filter_filter]
    congr 1
    funext e
    exact Bool.and_comm _ _

/-- Witness of C7: with `x1` and `x2` stored, deleting `x1` makes `getAlert`
on `x1` return nil and the scan by `x` return `x2` alone, with count 1. -/
theorem deleteAlert_frame_witness :
    Bucket.WF bucketX ∧
    deleteAlert committing (boltStore.holding bucketX) (str "x1") =
      .returns (none, boltStore.holding [(str "x2", docOf "x2" "Closed" sampleTime)]) ∧
    getAlert (boltStore.holding [(str "x2", docOf "x2" "Closed" sampleTime)]) (str "x1") =
      .returns none ∧
    getAlertsByPrefix json (boltStore.holding [(str "x2", docOf "x2" "Closed" sampleTime)])
        (str "x") =
      .returns (some (.array [[.ID (str "x2"), .Status (str "Closed"), .Time sampleTime]]),
        1, none) ∧
    ∃ bk1, boltStore.holding [(str "x2", docOf "x2" "Closed" sampleTime)] =
        boltStore.holding bk1 ∧
      getAlert (boltStore.holding bk1) (str "x1") = .returns none ∧
      (∀ k, k ≠ str "x1" →
        getAlert (boltStore.holding bk1) k = getAlert (boltStore.holding bucketX) k) ∧
      (∀ p, Bucket.matching p bk1 =
          (Bucket.matching p bucketX).filter (fun e => decide (e.1 ≠ str "x1")) ∧
        getAlertsByPrefix json (boltStore.holding bk1) p =
          .returns
            ((json.MarshalSlice (some (decodeChain json alertData.zero
                ((Bucket.matching p bk1).map Prod.snd)))).toOption,
             (decodeChain json alertData.zero ((Bucket.matching p bk1).map Prod.snd)).length,
             firstError json ((Bucket.matching p bk1).map Prod.snd))) :=
  ⟨by decide, by decide, by decide, by decide,
    deleteAlert_frame json committing bucketX (str "x1")
      (boltStore.holding [(str "x2", docOf "x2" "Closed" sampleTime)]) (by decide) (by decide)⟩

/-! ## scan -/

theorem exists_of_isOk {V A : Type} (J : JSON V A) (v : V)
    (h : (J.Unmarshal v).isOk = true) : ∃ f, J.Unmarshal v = .ok f := by
  cases hu : J.Unmarshal v with
  | error err => rw [hu] at h; cases h
  | ok f => exact ⟨f, rfl⟩

theorem matching_keys {V : Type} (p : Bytes) (bk : Bucket V) :
    (Bucket.matching p bk).map Prod.fst = (Bucket.keys bk).filter (fun k => HasPrefix k p) := by
  induction bk with
  | nil => rfl
  | cons e rest ih =>
    obtain ⟨k, v⟩ := e
    cases hp : HasPrefix k p with
    | true =>
      rw [matching_cons_of_hasPrefix p k v rest hp]
      simp only [Bucket.keys, List.map_cons] at ih ⊢
      rw [List.filter_cons_of_pos (by simpa using hp), ih]
    | false =>
      rw [matching_cons_of_not_hasPrefix p k v rest hp]
      simp only [Bucket.keys, List.map_cons] at ih ⊢
      rw [List.filter_cons_of_neg (by simp [hp]), ih]

theorem hasPrefix_nil (k : Bytes) : HasPrefix k [] = true := by
  cases k <;> rfl

/-- C2: on a store with strictly ascending keys all of whose texts decode,
`getAlertsByPrefix(p)` returns no error, as count the number of stored keys
that start with `p`, and the marshalled slice of the alerts decoded from the
texts under exactly those keys, one per key, in ascending key order; with the
empty `p` these are all the pairs of the bucket. -/
theorem getAlertsByPrefix_exact {V X : Type} [Inhabited X] (J : JSON V (alertData X))
    (bk : Bucket V) (p : Bytes) (hwf : Bucket.WF bk)
    (hdec : ∀ e ∈ bk, (J.Unmarshal e.2).isOk = true) :
    ∃ alerts,
      getAlertsByPrefix J (boltStore.holding bk) p =
        .returns ((J.MarshalSlice (some alerts)).toOption,
          ((Bucket.keys bk).filter (fun k => HasPrefix k p)).length, none) ∧
      alerts = decodeChain J alertData.zero ((Bucket.matching p bk).map Prod.snd) ∧
      alerts.length = ((Bucket.keys bk).filter (fun k => HasPrefix k p)).length ∧
      (Bucket.matching p bk).map Prod.fst = (Bucket.keys bk).filter (fun k => HasPrefix k p) ∧
      ((Bucket.keys bk).filter (fun k => HasPrefix k p)).Pairwise
        (fun k k2 => bytesLess k k2 = true) ∧
      (p = [] → Bucket.matching p bk = bk) := by
  have hall : ∀ v ∈ (Bucket.matching p bk).map Prod.snd, ∃ f, J.Unmarshal v = .ok f := by
    intro v hv
    obtain ⟨e, he, rfl⟩ := List.mem_map.1 hv
    exact exists_of_isOk J e.2 (hdec e (List.mem_filter.1 he).1)
  obtain ⟨hlen, hnone⟩ := decodeChain_of_all_decode J _ alertData.zero hall
  have hcount : (decodeChain J alertData.zero ((Bucket.matching p bk).map Prod.snd)).length =
      ((Bucket.keys bk).filter (fun k => HasPrefix k p)).length := by
    rw [hlen, ← matching_keys p bk]
    simp
  refine ⟨_, ?_, rfl, hcount, matching_keys p bk, ?_, ?_⟩
  · rw [getAlertsByPrefix_eq J bk p hwf, hnone, hcount]
  · apply List.Pairwise.filter
    exact List.pairwise_map.2 hwf
  · intro hp
    subst hp
    simp only [Bucket.matching]
    rw [List.filter_eq_self]
    intro e _
    exact hasPrefix_nil e.1

/-- Witness of C2: the keys `a1`, `a2`, `b1` give count 2 for `a`, 3 for the
empty string and 0 for `z`. -/
theorem getAlertsByPrefix_exact_witness :
    Bucket.WF bucketAAB ∧ (∀ e ∈ bucketAAB, (json.Unmarshal e.2).isOk = true) ∧
    getAlertsByPrefix json (boltStore.holding bucketAAB) (str "a") =
      .returns (some (.array
        [[.ID (str "a1"), .Status (str "Open"), .Time sampleTime],
         [.ID (str "a2"), .Status (str "Closed"), .Time sampleTime]]), 2, none) ∧
    getAlertsByPrefix json (boltStore.holding bucketAAB) (str "") =
      .returns (some (.array
        [[.ID (str "a1"), .Status (str "Open"), .Time sampleTime],
         [.ID (str "a2"), .Status (str "Closed"), .Time sampleTime],
         [.ID (str "b1"), .Status (str "Open"), .Time sampleTime]]), 3, none) ∧
    getAlertsByPrefix json (boltStore.holding bucketAAB) (str "z") =
      .returns (some (.array []), 0, none) ∧
    ∃ alerts,
      getAlertsByPrefix json (boltStore.holding bucketAAB) (str "a") =
        .returns ((json.MarshalSlice (some alerts)).toOption,
          ((Bucket.keys bucketAAB).filter (fun k => HasPrefix k (str "a"))).length, none) ∧
      alerts = decodeChain json alertData.zero
        ((Bucket.matching (str "a") bucketAAB).map Prod.snd) ∧
      alerts.length = ((Bucket.keys bucketAAB).filter (fun k => HasPrefix k (str "a"))).length ∧
      (Bucket.matching (str "a") bucketAAB).map Prod.fst =
        (Bucket.keys bucketAAB).filter (fun k => HasPrefix k (str "a")) ∧
      ((Bucket.keys bucketAAB).filter (fun k => HasPrefix k (str "a"))).Pairwise
        (fun k k2 => bytesLess k k2 = true) ∧
      (str "a" = [] → Bucket.matching (str "a") bucketAAB = bucketAAB) :=
  ⟨by decide, by decide, by decide, by decide, by decide,
    getAlertsByPrefix_exact json bucketAAB (str "a") (by decide) (by decide)⟩

/-- C4: on a store with strictly ascending keys, when the texts of the first
`n` pairs whose key starts with `p` decode and the text of the next such pair
does not, `getAlertsByPrefix(p)` returns the error of that text, count `n`,
and the marshalled slice of the `n` alerts decoded before it; nothing of the
pairs after it is in the result. -/
theorem getAlertsByPrefix_stops_at_error {V X : Type} [Inhabited X]
    (J : JSON V (alertData X)) (bk : Bucket V) (p : Bytes) (hwf : Bucket.WF bk)
    (ms1 ms2 : List (Bytes × V)) (e : Bytes × V) (err : Err)
    (hm : Bucket.matching p bk = ms1 ++ e :: ms2)
    (hok : ∀ x ∈ ms1, (J.Unmarshal x.2).isOk = true)
    (herr : J.Unmarshal e.2 = .error err) :
    getAlertsByPrefix J (boltStore.holding bk) p =
      .returns
        ((J.MarshalSlice (some (decodeChain J alertData.zero (ms1.map Prod.snd)))).toOption,
         ms1.length, some err) ∧
    (decodeChain J alertData.zero (ms1.map Prod.snd)).length = ms1.length := by
  have hall : ∀ v ∈ ms1.map Prod.snd, ∃ f, J.Unmarshal v = .ok f := by
    intro v hv
    obtain ⟨x, hx, rfl⟩ := List.mem_map.1 hv
    exact exists_of_isOk J x.2 (hok x hx)
  obtain ⟨hlen, _⟩ := decodeChain_of_all_decode J _ alertData.zero hall
  obtain ⟨hchain, hfirst⟩ :=
    decodeChain_until_error J e.2 err (ms2.map Prod.snd) herr (ms1.map Prod.snd)
      alertData.zero hall
  have hlen2 : (decodeChain J alertData.zero (ms1.map Prod.snd)).length = ms1.length := by
    rw [hlen]
    simp
  refine ⟨?_, hlen2⟩
  rw [getAlertsByPrefix_eq J bk p hwf, hm]
  simp only [List.map_append, List.map_cons]
  rw [hchain, hfirst, hlen2]

/-- Witness of C4: under `a` the bucket holds a text that decodes, one that
does not, and another that decodes. -/
theorem getAlertsByPrefix_stops_at_error_witness :
    Bucket.WF bucketBroken ∧
    Bucket.matching (str "a") bucketBroken =
      [(str "a1", docOf "a1" "Open" sampleTime)] ++
        (str "a2", Doc.invalid (str "oops")) :: [(str "a3", docOf "a3" "Open" sampleTime)] ∧
    getAlertsByPrefix json (boltStore.holding bucketBroken) (str "a") =
      .returns (some (.array [[.ID (str "a1"), .Status (str "Open"), .Time sampleTime]]),
        1, some "invalid character") ∧
    (decodeChain json alertData.zero
      ([(str "a1", docOf "a1" "Open" sampleTime)].map Prod.snd)).length = 1 :=
  ⟨by decide, by decide,
    getAlertsByPrefix_stops_at_error json bucketBroken (str "a") (by decide)
      [(str "a1", docOf "a1" "Open" sampleTime)] [(str "a3", docOf "a3" "Open" sampleTime)]
      (str "a2", Doc.invalid (str "oops")) "invalid character" (by decide) (by decide) rfl⟩

/-- C5: when no stored key starts with `p`, `getAlertsByPrefix(p)` returns no
error, count 0, and what `json.Marshal` makes of the empty slice that is not
nil, which is the empty array and not `null`. -/
theorem getAlertsByPrefix_empty {V X : Type} [Inhabited X] (J : JSON V (alertData X))
    (bk : Bucket V) (p : Bytes) (h : ∀ k ∈ Bucket.keys bk, HasPrefix k p = false) :
    getAlertsByPrefix J (boltStore.holding bk) p =
      .returns ((J.MarshalSlice (some [])).toOption, 0, none) := by
  have hloop : scanLoop J p (Bucket.Seek p bk) alertData.zero [] = ([], none) := by
    cases hs : Bucket.Seek p bk with
    | nil => rfl
    | cons e rest =>
      obtain ⟨k, v⟩ := e
      have hmem : (k, v) ∈ bk := Seek_subset p (k, v) bk (by rw [hs]; exact List.mem_cons_self _ _)
      have hk : HasPrefix k p = false := h k (List.mem_map.2 ⟨(k, v), hmem, rfl⟩)
      simp [scanLoop, hk]
  simp only [getAlertsByPrefix, boltStore.holding]
  rw [hloop]
  rfl

/-- Witness of C5: no key of `a1`, `a2`, `b1` starts with `z`; the result is
the empty array. -/
theorem getAlertsByPrefix_empty_witness :
    (∀ k ∈ Bucket.keys bucketAAB, HasPrefix k (str "z") = false) ∧
    json.MarshalSlice none = .ok Doc.null ∧
    getAlertsByPrefix json (boltStore.holding bucketAAB) (str "z") =
      .returns (some (Doc.array []), 0, none) :=
  ⟨by decide, rfl, getAlertsByPrefix_empty json bucketAAB (str "z") (by decide)⟩

/-- When every text stores the same alert whatever the destination held,
each alert of the chain is the fresh decoding of its text. -/
theorem decodeChain_fresh {V X : Type} [Inhabited X] (J : JSON V (alertData X)) :
    ∀ (vs : List V) (a : alertData X),
      (∀ v ∈ vs, ∃ f, J.Unmarshal v = .ok f ∧ ∀ x y, f x = f y) →
      decodeChain J a vs = vs.filterMap (freshDecode J)
  | [], _, _ => rfl
  | v :: vs, a, h => by
    obtain ⟨f, hf, hconst⟩ := h v (List.mem_cons_self _ _)
    have ih := decodeChain_fresh J vs (f a) (fun x hx => h x (List.mem_cons_of_mem _ hx))
    rw [hconst a alertData.zero] at ih
    simp [decodeChain, freshDecode, hf, ih, hconst a alertData.zero]

/-- C10: in the bucket whose texts are the full document of `a1` and
`{"ID":"a2"}`, the scan by `a` returns a second alert with the `Status` and
the `Time` of `a1`, while the second text decoded into a fresh alert has an
empty `Status` and the zero `Time`. -/
theorem getAlertsByPrefix_carries_over :
    Bucket.WF bucketSparse ∧
    getAlertsByPrefix json (boltStore.holding bucketSparse) (str "a") =
      .returns (some (.array
        [[.ID (str "a1"), .Status (str "Closed"), .Time sampleTime],
         [.ID (str "a2"), .Status (str "Closed"), .Time sampleTime]]), 2, none) ∧
    (scanLoop json (str "a") (Bucket.Seek (str "a") bucketSparse) alertData.zero []).1 =
      [{ ID := str "a1", Status := str "Closed", Time := sampleTime, extra := () },
       { ID := str "a2", Status := str "Closed", Time := sampleTime, extra := () }] ∧
    freshDecode json (Doc.object [.ID (str "a2")]) =
      some { ID := str "a2", Status := [], Time := 0, extra := () } := by
  decide

/-! ## initialization -/

/-- When `newBoltStore` returns a nil error, the store is not nil and its
`alerts` bucket exists. -/
theorem newBoltStore_ok {V : Type} (env : InitEnv V) (h : (newBoltStore env).2 = none) :
    ∃ b bk, (newBoltStore env).1 = some b ∧ b.db.alerts = some bk := by
  unfold newBoltStore at h ⊢
  cases ho : env.opened with
  | error err => rw [ho] at h; simp at h
  | ok db =>
    rw [ho] at h
    cases hc : env.createBucket with
    | some err => rw [hc] at h; simp at h
    | none =>
      rw [hc] at h
      cases hm : env.commit with
      | some err => rw [hm] at h; simp at h
      | none =>
        cases hd : db.alerts with
        | none => exact ⟨_, [], rfl, by simp [DB.CreateBucketIfNotExists, hd]⟩
        | some bk => exact ⟨_, bk, rfl, by simp [DB.CreateBucketIfNotExists, hd]⟩

/-- When `bolt.Open` fails, `newBoltStore` returns its error and a nil store. -/
theorem newBoltStore_open_fails {V : Type} (env : InitEnv V) (err : Err)
    (h : env.opened = .error err) : newBoltStore env = (none, some err) := by
  simp [newBoltStore, h]

/-- C8: when the database opens and the transaction that creates the bucket
does not commit, `newBoltStore` returns the error together with a store that is
not nil; the bucket of that store does not exist, so `getAlert` on it panics. -/
theorem newBoltStore_returns_store_with_error :
    newBoltStore envCommitFails =
      (some { db := { alerts := none } }, some "write error") ∧
    getAlert ({ db := { alerts := none } } : boltStore Doc) (str "x1") = .panics := by
  decide

/-! ## backup -/

theorem Header_Get_Set (h : Header) (k v k2 : String) :
    (h.Set k v).Get k2 = if k2 = k then some v else h.Get k2 := by
  induction h with
  | nil =>
    by_cases hk : k2 = k
    · simp [Header.Set, Header.Get, hk]
    · have hk2 : ¬ k = k2 := fun hc => hk hc.symm
      simp [Header.Set, Header.Get, hk, hk2]
  | cons e rest ih =>
    simp only [Header.Set, Header.Get] at ih ⊢
    by_cases he : e.1 = k
    · rw [List.filter_cons_of_neg (by simpa using he), ih]
      by_cases hk : k2 = k
      · rw [if_pos hk, if_pos hk]
      · have hek : ¬ e.1 = k2 := by rw [he]; exact fun hc => hk hc.symm
        rw [if_neg hk, if_neg hk, List.find?_cons_of_neg _ (by simpa using hek)]
    · rw [List.filter_cons_of_pos (by simpa using he), List.cons_append]
      by_cases hek : e.1 = k2
      · have hk : ¬ k2 = k := fun hc => he (hek.trans hc)
        rw [List.find?_cons_of_pos _ (by simpa using hek),
          List.find?_cons_of_pos _ (by simpa using hek), if_neg hk]
      · rw [List.find?_cons_of_neg _ (by simpa using hek),
          List.find?_cons_of_neg _ (by simpa using hek)]
        exact ih

theorem backupHeader_Get (file : Bytes) (h : Header) (k : String) :
    (backupHeader file h).Get k =
      if k = "Content-Length" then some (Itoa (Int.ofNat file.length))
      else if k = "Content-Disposition" then some "attachment; filename=\"alertboard.db\""
      else if k = "Content-Type" then some "application/octet-stream"
      else h.Get k := by
  simp only [backupHeader, Header_Get_Set]

theorem backup_complete (file : Bytes) (w : ResponseWriter) (hfresh : w.sent = none) :
    backup file .complete w =
      { header := backupHeader file w.header, sent := some (200, backupHeader file w.header),
        body := w.body ++ file } := by
  simp [backup, TxWriteTo, ResponseWriter.Write, ResponseWriter.WriteHeader, hfresh]

theorem backup_failsAfter (file : Bytes) (n : Nat) (err : Err) (w : ResponseWriter)
    (hfresh : w.sent = none) :
    (backup file (.failsAfter n err) w).sent = some (200, backupHeader file w.header) := by
  simp [backup, TxWriteTo, httpError, ResponseWriter.Write, ResponseWriter.WriteHeader, hfresh]

theorem backup_failsBeforeWrite (file : Bytes) (err : Err) (w : ResponseWriter)
    (hfresh : w.sent = none) :
    (backup file (.failsBeforeWrite err) w).sent.map Prod.fst = some StatusInternalServerError ∧
    (backup file (.failsBeforeWrite err) w).body = w.body ++ (str err ++ [10]) := by
  simp [backup, TxWriteTo, httpError, ResponseWriter.Write, ResponseWriter.WriteHeader, hfresh]

/-- C9: when `tx.WriteTo` fails after two bytes of the body went out, `backup`
hands the error to `http.Error` with status 500, but the response keeps the
status 200 and the `Content-Length` of the whole file that went out with the
first body byte, so the failure does not show as status 500; when
`tx.WriteTo` fails before its first write the same call does give status
500. -/
theorem backup_late_failure_not_500 :
    (TxWriteTo sampleFile (.failsAfter 2 "broken pipe")
      { freshWriter with header := backupHeader sampleFile freshWriter.header }).2
      = some "broken pipe" ∧
    (backup sampleFile (.failsAfter 2 "broken pipe") freshWriter).sent =
      some (200, [("Content-Type", "application/octet-stream"),
        ("Content-Disposition", "attachment; filename=\"alertboard.db\""),
        ("Content-Length", "4")]) ∧
    (backup sampleFile (.failsAfter 2 "broken pipe") freshWriter).sent.map Prod.fst ≠
      some StatusInternalServerError ∧
    (backup sampleFile (.failsBeforeWrite "no such file") freshWriter).sent.map Prod.fst =
      some StatusInternalServerError := by
  decide

end Alertboard
